import Mathlib

/-!
Shallow embedding of the virtual-event-management backend
(src/routes/event.routes.js, src/routes/auth.routes.js, src/db/inMemoryDb.js,
src/utils/email.js).

The in-memory database (db/inMemoryDb.js) holds three JS Maps:
users (keyed by email), events (keyed by event id), userEvents
(user id to Set of event ids).  JS Maps are modelled as association
lists with insert-or-replace semantics; JS Sets of ids as duplicate-free
lists in insertion order.  Event and user ids are produced by
Date.now().toString(); since decimal rendering of naturals is injective
we key the maps directly by the numeric timestamp.
-/

namespace VEM

/-- Map.prototype.get on an association list. -/
def mget {K V : Type} [DecidableEq K] : List (K × V) → K → Option V
  | [], _ => none
  | (k, v) :: rest, q => if q = k then some v else mget rest q

/-- Map.prototype.set on an association list: replace the existing entry
for the key, or append a new entry. -/
def mset {K V : Type} [DecidableEq K] : List (K × V) → K → V → List (K × V)
  | [], k, v => [(k, v)]
  | (k0, v0) :: rest, k, v =>
      if k = k0 then (k, v) :: rest else (k0, v0) :: mset rest k v

/-- Map.prototype.delete on an association list. -/
def mdel {K V : Type} [DecidableEq K] : List (K × V) → K → List (K × V)
  | [], _ => []
  | (k0, v0) :: rest, k =>
      if k = k0 then mdel rest k else (k0, v0) :: mdel rest k

/-- Set.prototype.add: append the element unless already present. -/
def sadd (s : List Nat) (x : Nat) : List Nat :=
  if x ∈ s then s else s ++ [x]

/-- Set.prototype.delete: remove the element. -/
def sdel (s : List Nat) (x : Nat) : List Nat :=
  s.filter (fun y => y ≠ x)

theorem mget_mset {K V : Type} [DecidableEq K] (m : List (K × V)) (k : K) (v : V) (q : K) :
    mget (mset m k v) q = if q = k then some v else mget m q := by
  induction m with
  | nil => simp [mget, mset]
  | cons h rest ih =>
      obtain ⟨k0, v0⟩ := h
      by_cases hk : k = k0
      · subst hk
        by_cases hq : q = k <;> simp [mget, mset, hq]
      · by_cases hq : q = k0
        · subst hq
          simp [mget, mset, hk, Ne.symm hk]
        · simp [mget, mset, hk, hq, ih]

theorem mget_mdel {K V : Type} [DecidableEq K] (m : List (K × V)) (k : K) (q : K) :
    mget (mdel m k) q = if q = k then none else mget m q := by
  induction m with
  | nil => simp [mget, mdel]
  | cons h rest ih =>
      obtain ⟨k0, v0⟩ := h
      by_cases hk : k = k0
      · subst hk
        by_cases hq : q = k
        · subst hq
          simp [mget, mdel, ih]
        · simp [mget, mdel, hq, ih]
      · by_cases hq : q = k0
        · subst hq
          simp [mget, mdel, hk, Ne.symm hk]
        · simp [mget, mdel, hk, hq, ih]

theorem mem_sadd (s : List Nat) (x y : Nat) :
    y ∈ sadd s x ↔ y ∈ s ∨ y = x := by
  unfold sadd
  by_cases h : x ∈ s
  · simp only [if_pos h]
    constructor
    · exact Or.inl
    · rintro (hy | rfl)
      · exact hy
      · exact h
  · simp [if_neg h]

theorem length_sadd_of_not_mem (s : List Nat) (x : Nat) (h : x ∉ s) :
    (sadd s x).length = s.length + 1 := by
  simp [sadd, h]

theorem mem_sdel (s : List Nat) (x y : Nat) :
    y ∈ sdel s x ↔ y ∈ s ∧ y ≠ x := by
  simp [sdel]

theorem sdel_sdel (s : List Nat) (x : Nat) :
    sdel (sdel s x) x = sdel s x := by
  simp [sdel, List.filter_filter]

/-- User profile, as built by the auth register route
(profile fields bio, interests, createdAt, eventsOrganized, eventsAttended). -/
structure Profile where
  name : String
  bio : String
  interests : List String
  createdAt : String
  eventsOrganized : Nat
  eventsAttended : Nat
deriving Repr, DecidableEq

/-- A user record as stored in db.users (keyed by email). -/
structure User where
  email : String
  password : String
  name : String
  role : String
  id : Nat
  profile : Profile
deriving Repr, DecidableEq

/-- An event record as stored in db.events (keyed by event id). -/
structure Event where
  id : Nat
  title : String
  description : String
  date : String
  time : String
  capacity : Int
  createdBy : Nat
  participants : List Nat
  createdAt : String
  updatedAt : Option String
deriving Repr, DecidableEq

/-- The three in-memory maps of db/inMemoryDb.js. -/
structure Store where
  users : List (String × User)
  events : List (Nat × Event)
  userEvents : List (Nat × List Nat)
deriving Repr, DecidableEq

/-- The store the process starts with: three empty maps. -/
def Store.empty : Store := ⟨[], [], []⟩

/-- JS truthiness of an optional string request field:
undefined and the empty string are falsy. -/
def truthyS : Option String → Bool
  | some s => s ≠ ""
  | none => false

/-- The JS idiom x or-else d for an optional string field
(x falsy keeps the previous value d). -/
def jsOrS (o : Option String) (d : String) : String :=
  match o with
  | some s => if s = "" then d else s
  | none => d

/-- JS truthiness of an optional integer request field:
undefined and 0 are falsy. -/
def truthyI : Option Int → Bool
  | some c => c ≠ 0
  | none => false

/-- The JS idiom x or-else d for an optional integer field
(x falsy, in particular 0, keeps the previous value d). -/
def jsOrI (o : Option Int) (d : Int) : Int :=
  match o with
  | some c => if c = 0 then d else c
  | none => d

/-- The error responses of the routes, by taxonomy. -/
inductive EvError
  | validation
  | notFound
  | unauthorized
  | capacityTooLow (currentParticipants : Nat)
  | eventFull
  | alreadyRegistered
  | internal
deriving Repr, DecidableEq

/-- HTTP status attached to each error response in the routes. -/
def status : EvError → Nat
  | .validation => 400
  | .notFound => 404
  | .unauthorized => 403
  | .capacityTooLow _ => 400
  | .eventFull => 400
  | .alreadyRegistered => 400
  | .internal => 500

/-- True on the 200-response side of a route result. -/
def isOk {α : Type} : Except EvError α → Bool
  | .ok _ => true
  | .error _ => false

instance {ε α : Type} [DecidableEq ε] [DecidableEq α] : DecidableEq (Except ε α) := fun x y =>
  match x, y with
  | .ok a, .ok b =>
      if h : a = b then .isTrue (by rw [h])
      else .isFalse (by intro he; cases he; exact h rfl)
  | .error a, .error b =>
      if h : a = b then .isTrue (by rw [h])
      else .isFalse (by intro he; cases he; exact h rfl)
  | .ok _, .error _ => .isFalse (by intro he; cases he)
  | .error _, .ok _ => .isFalse (by intro he; cases he)

/-- The linear scan Array.from(db.users.values()).find on u.id === userId,
over the users map values in insertion order. -/
def findUserById (s : Store) (userId : Nat) : Option User :=
  (s.users.map Prod.snd).find? (fun u => u.id = userId)

/-- POST /auth/register (auth.routes.js): reject a duplicate email with 400,
otherwise store the user record keyed by email, with id Date.now()
(modelled by the timestamp argument t), profile counters zero, and
initialise db.userEvents for the new id with an empty set. -/
def createUser (s : Store) (email password name role : String) (t : Nat)
    (now : String) : Except EvError User × Store :=
  if (mget s.users email).isSome then
    (.error .validation, s)
  else
    let u : User :=
      { email := email, password := password, name := name, role := role,
        id := t,
        profile := { name := name, bio := "", interests := [],
                     createdAt := now, eventsOrganized := 0,
                     eventsAttended := 0 } }
    (.ok u, { s with users := mset s.users email u,
                     userEvents := mset s.userEvents t [] })

/-- POST /events (event.routes.js): validate that title, date, time and
capacity are truthy (400 otherwise), then store a new event under the id
Date.now() (the timestamp argument t) with capacity parseInt(capacity),
empty participant set and the caller as createdBy. -/
def createEvent (s : Store) (userId : Nat)
    (title description date time : Option String) (capacity : Option Int)
    (t : Nat) (now : String) : Except EvError Event × Store :=
  if truthyS title && truthyS date && truthyS time && truthyI capacity then
    let ev : Event :=
      { id := t, title := title.getD "", description := jsOrS description "",
        date := date.getD "", time := time.getD "",
        capacity := capacity.getD 0, createdBy := userId,
        participants := [], createdAt := now, updatedAt := none }
    (.ok ev, { s with events := mset s.events t ev })
  else
    (.error .validation, s)

/-- PUT /events/:id (event.routes.js): 404 on unknown id, 403 for a
non-owner, 400 with the current participant count when the patch carries a
truthy capacity below that count, otherwise merge the patch with the JS
or-else idiom (falsy fields, including capacity 0, keep the old value),
stamp updatedAt and store the merged event.  The notification block of the
route is wrapped in per-recipient and whole-block try/catch handlers, never
touches the store and never changes the response, so it has no effect
here. -/
def updateEvent (s : Store) (eventId userId : Nat)
    (title description date time : Option String) (capacity : Option Int)
    (now : String) : Except EvError Event × Store :=
  match mget s.events eventId with
  | none => (.error .notFound, s)
  | some ev =>
    if ev.createdBy ≠ userId then
      (.error .unauthorized, s)
    else if truthyI capacity && decide (capacity.getD 0 < (ev.participants.length : Int)) then
      (.error (.capacityTooLow ev.participants.length), s)
    else
      let updated : Event :=
        { ev with
          title := jsOrS title ev.title,
          description := jsOrS description ev.description,
          date := jsOrS date ev.date,
          time := jsOrS time ev.time,
          capacity := jsOrI capacity ev.capacity,
          updatedAt := some now }
      (.ok updated, { s with events := mset s.events eventId updated })

/-- The notifications array of DELETE /events/:id: each participant id is
resolved through the users map; a participant without a user record yields
undefined (none), because the filter(Boolean) in the route is applied to
the array of promises, which are all truthy, and so removes nothing. -/
def resolveNotifications (s : Store) (ps : List Nat) : List (Option String) :=
  ps.map (fun pid => (findUserById s pid).map (fun u => u.email))

/-- sendBulkEmails (utils/email.js): recipients are destructured inside
map, so an undefined entry throws synchronously and the function rejects;
otherwise Promise.allSettled swallows every individual delivery failure,
so the outcome oracle emailFails is irrelevant and the call succeeds. -/
def sendBulkEmails (recipients : List (Option String))
    (emailFails : String → Bool) : Except EvError Unit :=
  if recipients.any (fun r => r.isNone) then .error .internal else .ok ()

/-- The cleanup loop of DELETE /events/:id: for each participant id with a
db.userEvents entry, delete the event id from that set. -/
def cleanupRegs (m : List (Nat × List Nat)) (eventId : Nat) (ps : List Nat) :
    List (Nat × List Nat) :=
  ps.foldl
    (fun acc pid =>
      match mget acc pid with
      | some l => mset acc pid (sdel l eventId)
      | none => acc)
    m

/-- DELETE /events/:id (event.routes.js): 404 on unknown id, 403 for a
non-owner; then the notifications are resolved, the userEvents cleanup runs
synchronously while the Promise.all array is built, and sendBulkEmails is
awaited together with it: if it rejects (an unresolved participant), the
route answers 500 and db.events.delete is never reached; otherwise the
event is removed and the response reports participantsNotified as the
participant count. -/
def deleteEvent (s : Store) (eventId userId : Nat)
    (emailFails : String → Bool) : Except EvError Nat × Store :=
  match mget s.events eventId with
  | none => (.error .notFound, s)
  | some ev =>
    if ev.createdBy ≠ userId then
      (.error .unauthorized, s)
    else if (resolveNotifications s ev.participants).length > 0 then
      match sendBulkEmails (resolveNotifications s ev.participants) emailFails with
      | .error _ =>
          (.error .internal,
            { s with userEvents := cleanupRegs s.userEvents eventId ev.participants })
      | .ok _ =>
          (.ok ev.participants.length,
            { s with userEvents := cleanupRegs s.userEvents eventId ev.participants,
                     events := mdel s.events eventId })
    else
      (.ok ev.participants.length,
        { s with userEvents := cleanupRegs s.userEvents eventId ev.participants,
                 events := mdel s.events eventId })

/-- POST /events/:id/register (event.routes.js): 404 on unknown event,
then 400 Event is full when the participant count has reached capacity,
then 400 Already registered when the caller is in the participant set;
otherwise the caller is added to the participant set, the event id is
added to the caller's userEvents set (created first when absent), and a
confirmation email is attempted when the caller resolves to a user record:
its failure is not caught, so the route then answers 500 although both
mutations are already committed.  The 200 payload carries spotsRemaining,
computed after the insertion. -/
def register (s : Store) (eventId userId : Nat)
    (emailFails : String → Bool) : Except EvError Int × Store :=
  match mget s.events eventId with
  | none => (.error .notFound, s)
  | some ev =>
    if (ev.participants.length : Int) ≥ ev.capacity then
      (.error .eventFull, s)
    else if userId ∈ ev.participants then
      (.error .alreadyRegistered, s)
    else
      let ev2 := { ev with participants := sadd ev.participants userId }
      let s2 : Store :=
        { s with
          events := mset s.events eventId ev2,
          userEvents := mset s.userEvents userId
            (sadd ((mget s.userEvents userId).getD []) eventId) }
      let spots : Int := ev.capacity - (ev2.participants.length : Int)
      match findUserById s2 userId with
      | some u => if emailFails u.email then (.error .internal, s2) else (.ok spots, s2)
      | none => (.ok spots, s2)

/-- One inbound mutating request, with the data the handler reads from the
environment (the Date.now() timestamp t, ISO clock strings, and the email
transport outcome oracle). -/
inductive Op
  | createUser (email password name role : String) (t : Nat) (now : String)
  | createEvent (userId : Nat) (title description date time : Option String)
      (capacity : Option Int) (t : Nat) (now : String)
  | updateEvent (eventId userId : Nat)
      (title description date time : Option String) (capacity : Option Int)
      (now : String)
  | deleteEvent (eventId userId : Nat) (emailFails : String → Bool)
  | register (eventId userId : Nat) (emailFails : String → Bool)

/-- The state effect of one request (the response is discarded). -/
def step (s : Store) : Op → Store
  | .createUser email pw name role t now => (createUser s email pw name role t now).2
  | .createEvent u ti d da tm c t now => (createEvent s u ti d da tm c t now).2
  | .updateEvent e u ti d da tm c now => (updateEvent s e u ti d da tm c now).2
  | .deleteEvent e u f => (deleteEvent s e u f).2
  | .register e u f => (register s e u f).2

/-- Run a sequence of requests left to right. -/
def run (s : Store) (ops : List Op) : Store := ops.foldl step s

/-- An email transport in which every delivery succeeds. -/
def mailOk : String → Bool := fun _ => false

/-- An email transport in which delivery to one address fails. -/
def mailFailTo (bad : String) : String → Bool := fun e => e = bad

theorem register_full {s : Store} {e u : Nat} (f : String → Bool) {ev : Event}
    (hev : mget s.events e = some ev)
    (hge : (ev.participants.length : Int) ≥ ev.capacity) :
    register s e u f = (.error .eventFull, s) := by
  simp [register, hev, hge]

theorem register_already {s : Store} {e u : Nat} (f : String → Bool) {ev : Event}
    (hev : mget s.events e = some ev)
    (hge : ¬ (ev.participants.length : Int) ≥ ev.capacity)
    (hmem : u ∈ ev.participants) :
    register s e u f = (.error .alreadyRegistered, s) := by
  simp [register, hev, hge, hmem]

theorem register_success_state {s : Store} {e u : Nat} (f : String → Bool) {ev : Event}
    (hev : mget s.events e = some ev)
    (hge : ¬ (ev.participants.length : Int) ≥ ev.capacity)
    (hmem : u ∉ ev.participants) :
    (register s e u f).2 =
      { s with
        events := mset s.events e { ev with participants := sadd ev.participants u },
        userEvents := mset s.userEvents u
          (sadd ((mget s.userEvents u).getD []) e) } := by
  simp only [register, hev, hge, if_false, hmem, ite_false]
  cases hfind : findUserById
      { s with
        events := mset s.events e { ev with participants := sadd ev.participants u },
        userEvents := mset s.userEvents u
          (sadd ((mget s.userEvents u).getD []) e) } u with
  | none => simp [hfind]
  | some usr => by_cases hf : f usr.email <;> simp [hfind, hf]

theorem register_success_resp {s : Store} {e u : Nat} (f : String → Bool) {ev : Event}
    (hev : mget s.events e = some ev)
    (hge : ¬ (ev.participants.length : Int) ≥ ev.capacity)
    (hmem : u ∉ ev.participants) :
    (register s e u f).1 = .error .internal ∨
      (register s e u f).1 = .ok (ev.capacity - ((ev.participants.length : Int) + 1)) := by
  have hlen : ((sadd ev.participants u).length : Int) = (ev.participants.length : Int) + 1 := by
    rw [length_sadd_of_not_mem ev.participants u hmem]
    push_cast
    ring
  simp only [register, hev, hge, if_false, hmem, ite_false]
  cases hfind : findUserById
      { s with
        events := mset s.events e { ev with participants := sadd ev.participants u },
        userEvents := mset s.userEvents u
          (sadd ((mget s.userEvents u).getD []) e) } u with
  | none => simp [hfind, hlen]
  | some usr =>
      by_cases hf : f usr.email
      · simp [hfind, hf]
      · simp [hfind, hf, hlen]

theorem register_success_resp_mailOk {s : Store} {e u : Nat} {ev : Event}
    (hev : mget s.events e = some ev)
    (hge : ¬ (ev.participants.length : Int) ≥ ev.capacity)
    (hmem : u ∉ ev.participants) :
    (register s e u mailOk).1 =
      .ok (ev.capacity - ((ev.participants.length : Int) + 1)) := by
  have hlen : ((sadd ev.participants u).length : Int) = (ev.participants.length : Int) + 1 := by
    rw [length_sadd_of_not_mem ev.participants u hmem]
    push_cast
    ring
  simp only [register, hev, hge, if_false, hmem, ite_false]
  cases hfind : findUserById
      { s with
        events := mset s.events e { ev with participants := sadd ev.participants u },
        userEvents := mset s.userEvents u
          (sadd ((mget s.userEvents u).getD []) e) } u with
  | none => simp [hfind, hlen]
  | some usr => simp [hfind, mailOk, hlen]

/-- An event with capacity 5 whose single participant is user 7, owned by
user 5. -/
def evC2 : Event :=
  { id := 1, title := "Team sync", description := "", date := "2025-01-01",
    time := "10:00", capacity := 5, createdBy := 5, participants := [7],
    createdAt := "c0", updatedAt := none }

/-- A store holding evC2, with the matching registration index entry. -/
def stC2 : Store := { users := [], events := [(1, evC2)], userEvents := [(7, [1])] }

/-- C2: an owner update request whose patch carries capacity 0 against an
event with 1 participant is claimed to fail with 400 capacity-too-low; the
code instead treats 0 as falsy in the guard if (capacity and capacity below
participant count), bypasses the check, answers 200 and silently keeps the
old capacity 5. -/
theorem claim_c2_capacity_zero_bypasses_guard :
    isOk (updateEvent stC2 1 5 none none none none (some 0) "u1").1 = true ∧
    (updateEvent stC2 1 5 none none none none (some 0) "u1").1 ≠
      .error (.capacityTooLow 1) ∧
    (mget ((updateEvent stC2 1 5 none none none none (some 0) "u1").2).events 1).map
      Event.capacity = some 5 := by
  decide

/-- An event whose participant 42 has no user record in the store. -/
def evC5 : Event :=
  { id := 1, title := "Demo day", description := "", date := "2025-02-02",
    time := "11:00", capacity := 5, createdBy := 5, participants := [42],
    createdAt := "c0", updatedAt := none }

/-- A store holding evC5 with an empty users map, so participant 42 does
not resolve. -/
def stC5 : Store := { users := [], events := [(1, evC5)], userEvents := [(42, [1])] }

/-- C5: the spec claims a failure while resolving notification recipients
never prevents the delete from committing and is never surfaced; but when a
participant id has no user record the notifications array keeps an
undefined entry (the filter(Boolean) runs on promises, which are all
truthy), sendBulkEmails throws on destructuring it, and the route answers
500 with the event still in the store; only the userEvents cleanup, which
ran synchronously before the await, has taken effect. -/
theorem claim_c5_unresolved_participant_aborts_delete :
    (deleteEvent stC5 1 5 mailOk).1 = .error .internal ∧
    status .internal = 500 ∧
    (mget ((deleteEvent stC5 1 5 mailOk).2).events 1).isSome = true ∧
    mget ((deleteEvent stC5 1 5 mailOk).2).userEvents 42 = some [] := by
  decide

/-- A full event (capacity 1) whose single participant is user 7. -/
def evC3full : Event :=
  { id := 1, title := "Workshop", description := "", date := "2025-03-03",
    time := "12:00", capacity := 1, createdBy := 5, participants := [7],
    createdAt := "c0", updatedAt := none }

/-- A store holding evC3full. -/
def stC3full : Store :=
  { users := [], events := [(1, evC3full)], userEvents := [(7, [1])] }

/-- C3 counterexample: user 7 is already registered for event 1, yet a
second register call answers Event is full, not Already registered,
because the route checks capacity before membership and the event is
full. -/
theorem claim_c3_counterexample :
    7 ∈ (((mget stC3full.events 1).map Event.participants).getD []) ∧
    (register stC3full 1 7 mailOk).1 = .error .eventFull ∧
    (register stC3full 1 7 mailOk).1 ≠ .error .alreadyRegistered := by
  decide

/-- C3 amended: a register call by a user already in the participant set
returns a 400 error and leaves the store unchanged; the error is Already
registered when the event is not full, but Event is full when the
participant count has reached capacity, because the capacity check runs
first. -/
theorem claim_c3_second_register_rejected (s : Store) (e u : Nat)
    (f : String → Bool) (ev : Event)
    (hev : mget s.events e = some ev) (hmem : u ∈ ev.participants) :
    register s e u f =
      (.error (if (ev.participants.length : Int) ≥ ev.capacity
               then EvError.eventFull else EvError.alreadyRegistered), s) ∧
    status (if (ev.participants.length : Int) ≥ ev.capacity
            then EvError.eventFull else EvError.alreadyRegistered) = 400 := by
  by_cases hge : (ev.participants.length : Int) ≥ ev.capacity
  · rw [if_pos hge]
    exact ⟨register_full f hev hge, rfl⟩
  · rw [if_neg hge]
    exact ⟨register_already f hev hge hmem, rfl⟩

/-- An event with capacity 5 whose single participant is user 7. -/
def evC3w : Event :=
  { id := 1, title := "Webinar", description := "", date := "2025-03-04",
    time := "13:00", capacity := 5, createdBy := 5, participants := [7],
    createdAt := "c0", updatedAt := none }

/-- A store holding evC3w. -/
def stC3w : Store :=
  { users := [], events := [(1, evC3w)], userEvents := [(7, [1])] }

/-- C3 witness: the amended statement applied to a non-full event with user
7 already registered. -/
theorem claim_c3_witness :
    register stC3w 1 7 mailOk =
      (.error (if (evC3w.participants.length : Int) ≥ evC3w.capacity
               then EvError.eventFull else EvError.alreadyRegistered), stC3w) ∧
    status (if (evC3w.participants.length : Int) ≥ evC3w.capacity
            then EvError.eventFull else EvError.alreadyRegistered) = 400 :=
  claim_c3_second_register_rejected stC3w 1 7 mailOk evC3w (by decide) (by decide)

/-- An empty event with capacity 2, owned by user 5. -/
def evC7 : Event :=
  { id := 1, title := "Townhall", description := "", date := "2025-04-04",
    time := "14:00", capacity := 2, createdBy := 5, participants := [],
    createdAt := "c0", updatedAt := none }

/-- A store holding evC7. -/
def stC7 : Store := { users := [], events := [(1, evC7)], userEvents := [] }

/-- C7: on an empty event of capacity 2, user 10 registers with
spotsRemaining 1, user 11 with spotsRemaining 0, and user 12 is rejected
with Event is full; in general every 200 register response carries
spotsRemaining equal to capacity minus the participant count after the new
participant was added. -/
theorem claim_c7_spots_remaining :
    ((register stC7 1 10 mailOk).1 = .ok 1 ∧
     (register (register stC7 1 10 mailOk).2 1 11 mailOk).1 = .ok 0 ∧
     (register (register (register stC7 1 10 mailOk).2 1 11 mailOk).2 1 12 mailOk).1 =
       .error .eventFull) ∧
    (∀ (s : Store) (e u : Nat) (f : String → Bool) (ev : Event) (sp : Int),
      mget s.events e = some ev → (register s e u f).1 = .ok sp →
      sp = ev.capacity - ((ev.participants.length : Int) + 1)) := by
  refine ⟨⟨by decide, by decide, by decide⟩, ?_⟩
  intro s e u f ev sp hev hok
  by_cases hge : (ev.participants.length : Int) ≥ ev.capacity
  · rw [register_full f hev hge] at hok
    simp at hok
  · by_cases hmem : u ∈ ev.participants
    · rw [register_already f hev hge hmem] at hok
      simp at hok
    · rcases register_success_resp f hev hge hmem with h | h
      · rw [h] at hok
        simp at hok
      · rw [h] at hok
        injection hok with h2
        exact h2.symm

/-- C7 witness: the general spotsRemaining equation applied to the first
register call of the scenario. -/
theorem claim_c7_witness :
    (1 : Int) = evC7.capacity - ((evC7.participants.length : Int) + 1) :=
  claim_c7_spots_remaining.2 stC7 1 10 mailOk evC7 1 (by decide) (by decide)

/-- C10: a 200 register call only adds the caller to the target event's
participant set and the event id to the caller's userEvents set (created
first when absent): the users map is untouched, every other event and
every other userEvents entry keeps its value, and in particular no user's
profile eventsAttended counter changes. -/
theorem claim_c10_register_frame (s : Store) (e u : Nat) (f : String → Bool)
    (ev : Event) (sp : Int)
    (hev : mget s.events e = some ev)
    (hok : (register s e u f).1 = .ok sp) :
    (register s e u f).2.users = s.users ∧
    mget (register s e u f).2.events e =
      some { ev with participants := ev.participants ++ [u] } ∧
    (∀ e2, e2 ≠ e → mget (register s e u f).2.events e2 = mget s.events e2) ∧
    mget (register s e u f).2.userEvents u =
      some (sadd ((mget s.userEvents u).getD []) e) ∧
    (∀ u2, u2 ≠ u → mget (register s e u f).2.userEvents u2 = mget s.userEvents u2) ∧
    (∀ em, (mget (register s e u f).2.users em).map (fun x => x.profile.eventsAttended) =
      (mget s.users em).map (fun x => x.profile.eventsAttended)) := by
  have hge : ¬ (ev.participants.length : Int) ≥ ev.capacity := by
    intro hge
    rw [register_full f hev hge] at hok
    simp at hok
  have hmem : u ∉ ev.participants := by
    intro hmem
    rw [register_already f hev hge hmem] at hok
    simp at hmem hok
  have hst := register_success_state f hev hge hmem
  have hsadd : sadd ev.participants u = ev.participants ++ [u] := by
    simp [sadd, hmem]
  rw [hst]
  refine ⟨rfl, ?_, ?_, ?_, ?_, fun em => rfl⟩
  · simp [mget_mset, hsadd]
  · intro e2 hne
    simp [mget_mset, hne]
  · simp [mget_mset]
  · intro u2 hne
    simp [mget_mset, hne]

/-- A user with id 7 and eventsAttended 0. -/
def usrC10 : User :=
  { email := "a@x", password := "h", name := "A", role := "attendee", id := 7,
    profile := { name := "A", bio := "", interests := [], createdAt := "c0",
                 eventsOrganized := 0, eventsAttended := 0 } }

/-- An empty event with capacity 2, owned by user 5. -/
def evC10 : Event :=
  { id := 1, title := "Meetup", description := "", date := "2025-06-06",
    time := "15:00", capacity := 2, createdBy := 5, participants := [],
    createdAt := "c0", updatedAt := none }

/-- A store holding usrC10 and evC10 with no registrations yet. -/
def stC10 : Store :=
  { users := [("a@x", usrC10)], events := [(1, evC10)], userEvents := [] }

/-- C10 witness: the frame statement applied to user 7 registering for
event 1 in stC10. -/
theorem claim_c10_witness :
    (register stC10 1 7 mailOk).2.users = stC10.users ∧
    mget (register stC10 1 7 mailOk).2.events 1 =
      some { evC10 with participants := evC10.participants ++ [7] } :=
  ⟨(claim_c10_register_frame stC10 1 7 mailOk evC10 1 (by decide) (by decide)).1,
   (claim_c10_register_frame stC10 1 7 mailOk evC10 1 (by decide) (by decide)).2.1⟩

theorem createEvent_ok {s : Store} {u : Nat} {ti d da tm : Option String}
    {c : Option Int} {t : Nat} {n : String} {ev : Event}
    (h : (createEvent s u ti d da tm c t n).1 = .ok ev) :
    ev.id = t ∧
    (createEvent s u ti d da tm c t n).2 = { s with events := mset s.events t ev } := by
  cases hv : (truthyS ti && truthyS da && truthyS tm && truthyI c) with
  | false => simp [createEvent, hv] at h
  | true =>
      simp only [createEvent, hv, if_true] at h ⊢
      injection h with h
      subst h
      exact ⟨rfl, rfl⟩

/-- A store holding one event created with the Date.now() value 100. -/
def stC8a : Store :=
  (createEvent Store.empty 5 (some "First") none (some "2025-05-05")
    (some "09:00") (some 3) 100 "c1").2

/-- C8 counterexample: two successful createEvent calls that observe the
same Date.now() value (two requests in the same millisecond) produce the
same event id that string, and the second call overwrites the first event:
the store ends with a single event carrying the second title. -/
theorem claim_c8_counterexample :
    isOk (createEvent Store.empty 5 (some "First") none (some "2025-05-05")
      (some "09:00") (some 3) 100 "c1").1 = true ∧
    isOk (createEvent stC8a 5 (some "Second") none (some "2025-05-05")
      (some "09:00") (some 3) 100 "c2").1 = true ∧
    ((createEvent stC8a 5 (some "Second") none (some "2025-05-05")
      (some "09:00") (some 3) 100 "c2").2).events.map (fun p => (p.1, p.2.title)) =
      [(100, "Second")] := by
  decide

/-- C8 amended: two successful createEvent calls whose Date.now() values
strictly increased produce distinct ids that reflect generation order, and
the second create leaves the first event in place under its own id. -/
theorem claim_c8_create_ids (s : Store) (uA uB : Nat)
    (tiA dA daA tmA tiB dB daB tmB : Option String) (cA cB : Option Int)
    (tA tB : Nat) (nA nB : String) (evA evB : Event)
    (h1 : (createEvent s uA tiA dA daA tmA cA tA nA).1 = .ok evA)
    (h2 : (createEvent (createEvent s uA tiA dA daA tmA cA tA nA).2
            uB tiB dB daB tmB cB tB nB).1 = .ok evB)
    (hlt : tA < tB) :
    evA.id ≠ evB.id ∧ evA.id < evB.id ∧
    mget (createEvent (createEvent s uA tiA dA daA tmA cA tA nA).2
      uB tiB dB daB tmB cB tB nB).2.events tA = some evA ∧
    mget (createEvent (createEvent s uA tiA dA daA tmA cA tA nA).2
      uB tiB dB daB tmB cB tB nB).2.events tB = some evB := by
  obtain ⟨hidA, hstA⟩ := createEvent_ok h1
  obtain ⟨hidB, hstB⟩ := createEvent_ok h2
  have hne : tA ≠ tB := Nat.ne_of_lt hlt
  refine ⟨?_, ?_, ?_, ?_⟩
  · rw [hidA, hidB]
    exact hne
  · rw [hidA, hidB]
    exact hlt
  · rw [hstB, hstA]
    simp [mget_mset, hne]
  · rw [hstB]
    simp [mget_mset]

/-- The event created first in the C8 witness run. -/
def evC8a : Event :=
  { id := 100, title := "First", description := "", date := "2025-05-05",
    time := "09:00", capacity := 3, createdBy := 5, participants := [],
    createdAt := "c1", updatedAt := none }

/-- The event created second in the C8 witness run. -/
def evC8b : Event :=
  { id := 101, title := "Second", description := "", date := "2025-05-05",
    time := "09:00", capacity := 3, createdBy := 5, participants := [],
    createdAt := "c2", updatedAt := none }

/-- C8 witness: the amended statement applied to two creates at the
Date.now() values 100 and 101. -/
theorem claim_c8_witness :
    evC8a.id ≠ evC8b.id ∧ evC8a.id < evC8b.id ∧
    mget (createEvent (createEvent Store.empty 5 (some "First") none
        (some "2025-05-05") (some "09:00") (some 3) 100 "c1").2
      5 (some "Second") none (some "2025-05-05") (some "09:00") (some 3)
      101 "c2").2.events 100 = some evC8a ∧
    mget (createEvent (createEvent Store.empty 5 (some "First") none
        (some "2025-05-05") (some "09:00") (some 3) 100 "c1").2
      5 (some "Second") none (some "2025-05-05") (some "09:00") (some 3)
      101 "c2").2.events 101 = some evC8b :=
  claim_c8_create_ids Store.empty 5 5 (some "First") none (some "2025-05-05")
    (some "09:00") (some "Second") none (some "2025-05-05") (some "09:00")
    (some 3) (some 3) 100 101 "c1" "c2" evC8a evC8b (by decide) (by decide)
    (by decide)

/-- The capacity invariant of the spec: every stored event has at most
capacity participants. -/
def CapInv (s : Store) : Prop :=
  ∀ e ev, mget s.events e = some ev → (ev.participants.length : Int) ≤ ev.capacity

/-- True when a request is not a createEvent whose capacity field is a
negative number. -/
def capNonnegB : Op → Bool
  | .createEvent _ _ _ _ _ c _ _ =>
      match c with
      | some x => decide (0 ≤ x)
      | none => true
  | _ => true

theorem createUser_events (s : Store) (em pw nm rl : String) (t : Nat) (now : String) :
    (createUser s em pw nm rl t now).2.events = s.events := by
  unfold createUser
  split <;> rfl

theorem deleteEvent_events_sub {s : Store} {eid uid : Nat} {f : String → Bool}
    {e : Nat} {ev : Event}
    (h : mget (deleteEvent s eid uid f).2.events e = some ev) :
    mget s.events e = some ev := by
  cases hm : mget s.events eid with
  | none => simp only [deleteEvent, hm] at h; exact h
  | some ev0 =>
      simp only [deleteEvent, hm] at h
      by_cases hown : ev0.createdBy ≠ uid
      · rw [if_pos hown] at h; exact h
      · rw [if_neg hown] at h
        by_cases hlen : (resolveNotifications s ev0.participants).length > 0
        · rw [if_pos hlen] at h
          split at h
          · exact h
          · simp only [mget_mdel] at h
            by_cases he : e = eid
            · rw [if_pos he] at h; cases h
            · rw [if_neg he] at h; exact h
        · rw [if_neg hlen] at h
          simp only [mget_mdel] at h
          by_cases he : e = eid
          · rw [if_pos he] at h; cases h
          · rw [if_neg he] at h; exact h

theorem step_preserves_capInv (s : Store) (op : Op) (hInv : CapInv s)
    (hcap : capNonnegB op = true) : CapInv (step s op) := by
  cases op with
  | createUser em pw nm rl t now =>
      intro e ev h
      rw [step, createUser_events] at h
      exact hInv e ev h
  | createEvent u ti d da tm c t now =>
      intro e ev h
      rw [step] at h
      cases hv : (truthyS ti && truthyS da && truthyS tm && truthyI c) with
      | false =>
          simp only [createEvent, hv, Bool.false_eq_true, if_false] at h
          exact hInv e ev h
      | true =>
          simp only [createEvent, hv, if_true] at h
          rw [mget_mset] at h
          by_cases he : e = t
          · rw [if_pos he] at h
            injection h with h
            subst h
            simp only [List.length_nil, Nat.cast_zero]
            cases c with
            | none => simp [truthyI] at hv
            | some x =>
                simp only [Option.getD_some]
                simpa [capNonnegB] using hcap
          · rw [if_neg he] at h
            exact hInv e ev h
  | updateEvent eid uid ti d da tm c now =>
      intro e ev h
      rw [step] at h
      cases hm : mget s.events eid with
      | none =>
          simp only [updateEvent, hm] at h
          exact hInv e ev h
      | some ev0 =>
          simp only [updateEvent, hm] at h
          by_cases hown : ev0.createdBy ≠ uid
          · rw [if_pos hown] at h
            exact hInv e ev h
          · rw [if_neg hown] at h
            by_cases hguard :
                (truthyI c && decide (c.getD 0 < (ev0.participants.length : Int))) = true
            · rw [if_pos hguard] at h
              exact hInv e ev h
            · rw [if_neg hguard] at h
              simp only [mget_mset] at h
              by_cases he : e = eid
              · rw [if_pos he] at h
                injection h with h
                subst h
                simp only
                have hold := hInv eid ev0 hm
                cases c with
                | none => simpa [jsOrI] using hold
                | some x =>
                    by_cases hx : x = 0
                    · subst hx
                      simpa [jsOrI] using hold
                    · have hxlt : ¬ ((x : Int) < (ev0.participants.length : Int)) := by
                        intro hlt
                        exact hguard (by simp [truthyI, hx, hlt])
                      simp only [jsOrI, Option.getD_some, if_neg hx]
                      omega
              · rw [if_neg he] at h
                exact hInv e ev h
  | deleteEvent eid uid f =>
      intro e ev h
      rw [step] at h
      exact hInv e ev (deleteEvent_events_sub h)
  | register eid uid f =>
      intro e ev h
      rw [step] at h
      cases hm : mget s.events eid with
      | none => simp only [register, hm] at h; exact hInv e ev h
      | some ev0 =>
          by_cases hge : (ev0.participants.length : Int) ≥ ev0.capacity
          · rw [register_full f hm hge] at h
            exact hInv e ev h
          · by_cases hmem : uid ∈ ev0.participants
            · rw [register_already f hm hge hmem] at h
              exact hInv e ev h
            · rw [register_success_state f hm hge hmem] at h
              simp only [mget_mset] at h
              by_cases he : e = eid
              · rw [if_pos he] at h
                injection h with h
                subst h
                simp only [length_sadd_of_not_mem ev0.participants uid hmem]
                push_cast
                omega
              · rw [if_neg he] at h
                exact hInv e ev h

/-- C1 amended: along any request sequence from the empty store in which
every createEvent capacity field is nonnegative, every stored event always
has at most capacity participants.  The restriction is forced: the create
route only checks that capacity is truthy, so a negative capacity is
accepted and immediately violates the bound. -/
theorem claim_c1_capacity_invariant (ops : List Op)
    (hcap : ops.all capNonnegB = true) :
    CapInv (run Store.empty ops) := by
  have hgen : ∀ (l : List Op) (s : Store), CapInv s → l.all capNonnegB = true →
      CapInv (run s l) := by
    intro l
    induction l with
    | nil => intro s hs _; exact hs
    | cons op rest ih =>
        intro s hs hall
        rw [List.all_cons, Bool.and_eq_true] at hall
        exact ih (step s op) (step_preserves_capInv s op hs hall.1) hall.2
  exact hgen ops Store.empty (by intro e ev h; simp [Store.empty, mget] at h) hcap

/-- C1 witness: the invariant holds after creating an event with capacity 2
and registering user 7 for it. -/
theorem claim_c1_witness :
    CapInv (run Store.empty
      [Op.createEvent 5 (some "T") none (some "2025-07-07") (some "16:00")
        (some 2) 100 "c0",
       Op.register 100 7 mailOk]) :=
  claim_c1_capacity_invariant _ (by decide)

/-- C1 counterexample: a single createEvent whose capacity field is the
truthy value minus one is accepted by the route and stores an event with 0
participants and capacity minus one, so the invariant fails on a reachable
store. -/
theorem claim_c1_counterexample :
    ¬ CapInv (run Store.empty
      [Op.createEvent 5 (some "T") none (some "2025-07-07") (some "16:00")
        (some (-1)) 100 "c0"]) := by
  intro h
  have h2 := h 100
    { id := 100, title := "T", description := "", date := "2025-07-07",
      time := "16:00", capacity := -1, createdBy := 5, participants := [],
      createdAt := "c0", updatedAt := none } (by decide)
  exact absurd h2 (by decide)

/-- The registered-event set of a user: the userEvents entry, or empty when
the user has none yet. -/
def ueOf (s : Store) (u : Nat) : List Nat := (mget s.userEvents u).getD []

/-- Bidirectional consistency of the registration index: a user is in an
event's participant set exactly when the event id is in the user's
registered-event set, and every registered event id points at a stored
event. -/
def Consistent (s : Store) : Prop :=
  (∀ e ev, mget s.events e = some ev → ∀ u, u ∈ ev.participants ↔ e ∈ ueOf s u) ∧
  (∀ u e, e ∈ ueOf s u → (mget s.events e).isSome = true)

/-- True when a request's generated Date.now() id is unused (creates) and,
for a delete, every participant of the target event resolves to a user
record, so that the delete commits. -/
def safeB (s : Store) : Op → Bool
  | .createUser _ _ _ _ t _ => (mget s.userEvents t).isNone
  | .createEvent _ _ _ _ _ _ t _ => (mget s.events t).isNone
  | .deleteEvent e _ _ =>
      match mget s.events e with
      | some ev => ev.participants.all (fun p => (findUserById s p).isSome)
      | none => true
  | _ => true

/-- True when every request of the sequence is safe in the store it runs
against. -/
def safeRunB (s : Store) : List Op → Bool
  | [] => true
  | op :: rest => safeB s op && safeRunB (step s op) rest

theorem mget_cleanupRegs (eid : Nat) (ps : List Nat) (m : List (Nat × List Nat)) (u : Nat) :
    mget (cleanupRegs m eid ps) u =
      (mget m u).map (fun l => if u ∈ ps then sdel l eid else l) := by
  induction ps generalizing m with
  | nil =>
      cases hm : mget m u <;> simp [cleanupRegs, hm]
  | cons p ps ih =>
      have hstep : cleanupRegs m eid (p :: ps) =
          cleanupRegs (match mget m p with
                       | some l => mset m p (sdel l eid)
                       | none => m) eid ps := rfl
      rw [hstep]
      cases hm : mget m p with
      | none =>
          rw [ih]
          by_cases hu : u = p
          · subst hu
            rw [hm]
            cases hmu : mget m u
            · simp
            · rw [hm] at hmu; cases hmu
          · simp only [List.mem_cons, hu, false_or]
      | some l =>
          rw [ih]
          by_cases hu : u = p
          · subst hu
            simp only [mget_mset, if_pos rfl, hm, Option.map_some, List.mem_cons,
              true_or, if_true, sdel_sdel]
            by_cases hps : u ∈ ps <;> simp [hps, sdel_sdel]
          · simp [mget_mset, hu]

theorem step_preserves_consistent (s : Store) (op : Op) (hC : Consistent s)
    (hS : safeB s op = true) : Consistent (step s op) := by
  obtain ⟨hC1, hC2⟩ := hC
  cases op with
  | createUser em pw nm rl t now =>
      have ht : mget s.userEvents t = none := by
        simpa [safeB, Option.isNone_iff_eq_none] using hS
      rw [step]
      unfold createUser
      by_cases hdup : (mget s.users em).isSome
      · rw [if_pos hdup]
        exact ⟨hC1, hC2⟩
      · rw [if_neg hdup]
        constructor
        · intro e ev hev u
          have hev2 : mget s.events e = some ev := hev
          by_cases hu : u = t
          · subst hu
            have := hC1 e ev hev2 u
            rw [this]
            simp [ueOf, mget_mset, ht]
          · rw [hC1 e ev hev2 u]
            simp [ueOf, mget_mset, hu]
        · intro u e he
          by_cases hu : u = t
          · subst hu
            simp [ueOf, mget_mset] at he
          · simp only [ueOf, mget_mset, if_neg hu] at he
            exact hC2 u e he
  | createEvent uid ti d da tm c t now =>
      have ht : mget s.events t = none := by
        simpa [safeB, Option.isNone_iff_eq_none] using hS
      rw [step]
      cases hv : (truthyS ti && truthyS da && truthyS tm && truthyI c) with
      | false =>
          simp only [createEvent, hv, Bool.false_eq_true, if_false]
          exact ⟨hC1, hC2⟩
      | true =>
          simp only [createEvent, hv, if_true]
          constructor
          · intro e ev hev u
            simp only [mget_mset] at hev
            by_cases he : e = t
            · rw [if_pos he] at hev
              injection hev with hev
              subst hev
              subst he
              simp only [List.not_mem_nil, false_iff]
              intro hmem
              have := hC2 u e hmem
              rw [ht] at this
              cases this
            · rw [if_neg he] at hev
              exact hC1 e ev hev u
          · intro u e he
            have := hC2 u e he
            simp only [mget_mset]
            by_cases het : e = t
            · rw [if_pos het]; rfl
            · rw [if_neg het]; exact this
  | updateEvent eid uid ti d da tm c now =>
      rw [step]
      cases hm : mget s.events eid with
      | none =>
          simp only [updateEvent, hm]
          exact ⟨hC1, hC2⟩
      | some ev0 =>
          simp only [updateEvent, hm]
          by_cases hown : ev0.createdBy ≠ uid
          · rw [if_pos hown]
            exact ⟨hC1, hC2⟩
          · rw [if_neg hown]
            by_cases hguard :
                (truthyI c && decide (c.getD 0 < (ev0.participants.length : Int))) = true
            · rw [if_pos hguard]
              exact ⟨hC1, hC2⟩
            · rw [if_neg hguard]
              constructor
              · intro e ev hev u
                simp only [mget_mset] at hev
                by_cases he : e = eid
                · rw [if_pos he] at hev
                  injection hev with hev
                  subst hev
                  subst he
                  exact hC1 e ev0 hm u
                · rw [if_neg he] at hev
                  exact hC1 e ev hev u
              · intro u e he
                have := hC2 u e he
                simp only [mget_mset]
                by_cases het : e = eid
                · rw [if_pos het]; rfl
                · rw [if_neg het]; exact this
  | deleteEvent eid uid f =>
      rw [step]
      cases hm : mget s.events eid with
      | none =>
          simp only [deleteEvent, hm]
          exact ⟨hC1, hC2⟩
      | some ev0 =>
          simp only [deleteEvent, hm]
          by_cases hown : ev0.createdBy ≠ uid
          · rw [if_pos hown]
            exact ⟨hC1, hC2⟩
          · rw [if_neg hown]
            have hres : ∀ p ∈ ev0.participants, (findUserById s p).isSome = true := by
              intro p hp
              have := hS
              simp only [safeB, hm, List.all_eq_true] at this
              exact this p hp
            have hnone : (resolveNotifications s ev0.participants).any
                (fun r => r.isNone) = false := by
              rw [List.any_eq_false]
              intro r hr
              simp only [resolveNotifications, List.mem_map] at hr
              obtain ⟨p, hp, rfl⟩ := hr
              have hr2 := hres p hp
              cases hfp : findUserById s p
              · rw [hfp] at hr2; cases hr2
              · simp [hfp]
            have hbulk : sendBulkEmails (resolveNotifications s ev0.participants) f = .ok () := by
              simp [sendBulkEmails, hnone]
            have hfinal :
                (if (resolveNotifications s ev0.participants).length > 0 then
                  match sendBulkEmails (resolveNotifications s ev0.participants) f with
                  | .error _ =>
                      ((.error .internal : Except EvError Nat),
                        { s with userEvents := cleanupRegs s.userEvents eid ev0.participants })
                  | .ok _ =>
                      (.ok ev0.participants.length,
                        { s with userEvents := cleanupRegs s.userEvents eid ev0.participants,
                                 events := mdel s.events eid })
                else
                  (.ok ev0.participants.length,
                    { s with userEvents := cleanupRegs s.userEvents eid ev0.participants,
                             events := mdel s.events eid })).2 =
                  { s with userEvents := cleanupRegs s.userEvents eid ev0.participants,
                           events := mdel s.events eid } := by
              by_cases hlen : (resolveNotifications s ev0.participants).length > 0
              · rw [if_pos hlen, hbulk]
              · rw [if_neg hlen]
            rw [hfinal]
            have hue : ∀ u e, e ∈ ueOf { s with
                userEvents := cleanupRegs s.userEvents eid ev0.participants,
                events := mdel s.events eid } u ↔
                e ∈ ueOf s u ∧ ¬(u ∈ ev0.participants ∧ e = eid) := by
              intro u e
              simp only [ueOf, mget_cleanupRegs]
              cases hmu : mget s.userEvents u with
              | none => simp
              | some l =>
                  by_cases hps : u ∈ ev0.participants
                  · simp [hps, mem_sdel]
                  · simp [hps]
            constructor
            · intro e ev hev u
              simp only [mget_mdel] at hev
              by_cases he : e = eid
              · rw [if_pos he] at hev; cases hev
              · rw [if_neg he] at hev
                rw [hue u e]
                constructor
                · intro hp
                  exact ⟨(hC1 e ev hev u).mp hp, fun hc => he hc.2⟩
                · intro hc
                  exact (hC1 e ev hev u).mpr hc.1
            · intro u e he
              rw [hue u e] at he
              obtain ⟨he1, he2⟩ := he
              have hsome := hC2 u e he1
              by_cases heid : e = eid
              · subst heid
                have : u ∈ ev0.participants := (hC1 e ev0 hm u).mpr he1
                exact absurd ⟨this, rfl⟩ he2
              · simp only [mget_mdel, if_neg heid]
                exact hsome
  | register eid uid f =>
      rw [step]
      cases hm : mget s.events eid with
      | none =>
          simp only [register, hm]
          exact ⟨hC1, hC2⟩
      | some ev0 =>
          by_cases hge : (ev0.participants.length : Int) ≥ ev0.capacity
          · rw [register_full f hm hge]
            exact ⟨hC1, hC2⟩
          · by_cases hmem : uid ∈ ev0.participants
            · rw [register_already f hm hge hmem]
              exact ⟨hC1, hC2⟩
            · rw [register_success_state f hm hge hmem]
              have hue : ∀ u, ueOf { s with
                  events := mset s.events eid { ev0 with participants := sadd ev0.participants uid },
                  userEvents := mset s.userEvents uid (sadd ((mget s.userEvents uid).getD []) eid) } u =
                  if u = uid then sadd (ueOf s uid) eid else ueOf s u := by
                intro u
                by_cases hu : u = uid
                · simp [ueOf, mget_mset, hu]
                · simp [ueOf, mget_mset, hu]
              constructor
              · intro e ev hev u
                simp only [mget_mset] at hev
                rw [hue u]
                by_cases he : e = eid
                · rw [if_pos he] at hev
                  injection hev with hev
                  subst hev
                  subst he
                  simp only [mem_sadd]
                  by_cases hu : u = uid
                  · subst hu
                    simp [mem_sadd]
                  · rw [if_neg hu]
                    rw [hC1 e ev0 hm u]
                    simp [hu]
                · rw [if_neg he] at hev
                  by_cases hu : u = uid
                  · subst hu
                    rw [if_pos rfl, mem_sadd]
                    rw [hC1 e ev hev u]
                    simp [he]
                  · rw [if_neg hu]
                    exact hC1 e ev hev u
              · intro u e he
                rw [hue u] at he
                simp only [mget_mset]
                by_cases heid : e = eid
                · rw [if_pos heid]; rfl
                · rw [if_neg heid]
                  by_cases hu : u = uid
                  · subst hu
                    rw [if_pos rfl, mem_sadd] at he
                    rcases he with he | he
                    · exact hC2 u e he
                    · exact absurd he heid
                  · rw [if_neg hu] at he
                    exact hC2 u e he

/-- C6 amended: bidirectional consistency holds after every mutation along
any request sequence from the empty store in which each generated
Date.now() id is fresh and every delete's participants resolve to user
records.  Both restrictions are forced: two creates in the same
millisecond reuse an id, and the second create resets the participant set
while userEvents still points at the id; an unresolvable participant makes
the delete abort half way, after the userEvents cleanup but before the
event removal. -/
theorem claim_c6_bidirectional_consistency (ops : List Op)
    (hsafe : safeRunB Store.empty ops = true) :
    Consistent (run Store.empty ops) := by
  have hgen : ∀ (l : List Op) (s : Store), Consistent s → safeRunB s l = true →
      Consistent (run s l) := by
    intro l
    induction l with
    | nil => intro s hs _; exact hs
    | cons op rest ih =>
        intro s hs hall
        rw [safeRunB, Bool.and_eq_true] at hall
        exact ih (step s op) (step_preserves_consistent s op hs hall.1) hall.2
  refine hgen ops Store.empty ?_ hsafe
  constructor
  · intro e ev h
    simp [Store.empty, mget] at h
  · intro u e h
    simp [Store.empty, ueOf, mget] at h

/-- The event left in the store by the C6 counterexample run: the second
create at the same Date.now() value 100 resets the participant set. -/
def evC6b : Event :=
  { id := 100, title := "B", description := "", date := "2025-08-08",
    time := "17:00", capacity := 3, createdBy := 5, participants := [],
    createdAt := "c3", updatedAt := none }

/-- C6 counterexample: create an event at Date.now() 100, register user 7,
then create another event observing the same Date.now() 100; the second
create overwrites the first, user 7 ends registered for event 100 in
userEvents while absent from the stored participant set, so bidirectional
consistency fails on a reachable store. -/
theorem claim_c6_counterexample :
    ¬ Consistent (run Store.empty
      [Op.createEvent 5 (some "A") none (some "2025-08-08") (some "17:00")
        (some 3) 100 "c1",
       Op.register 100 7 mailOk,
       Op.createEvent 5 (some "B") none (some "2025-08-08") (some "17:00")
        (some 3) 100 "c3"]) := by
  intro h
  have h1 := (h.1 100 evC6b (by decide) 7).mpr (by decide)
  exact absurd h1 (by decide)

/-- C6 witness: consistency after a run that creates a user, creates an
event, registers the user and finally deletes the event. -/
theorem claim_c6_witness :
    Consistent (run Store.empty
      [Op.createUser "a@x" "pw" "A" "attendee" 7 "c0",
       Op.createEvent 5 (some "T") none (some "2025-08-09") (some "18:00")
        (some 2) 100 "c1",
       Op.register 100 7 mailOk,
       Op.deleteEvent 100 5 mailOk]) :=
  claim_c6_bidirectional_consistency _ (by decide)

theorem resolve_all_some {s : Store} {ps : List Nat}
    (hres : ∀ p ∈ ps, (findUserById s p).isSome = true) :
    (resolveNotifications s ps).any (fun r => r.isNone) = false := by
  rw [List.any_eq_false]
  intro r hr
  simp only [resolveNotifications, List.mem_map] at hr
  obtain ⟨p, hp, rfl⟩ := hr
  have hr2 := hres p hp
  cases hfp : findUserById s p
  · rw [hfp] at hr2; cases hr2
  · simp [hfp]

theorem deleteEvent_commit {s : Store} {e owner : Nat} {f : String → Bool} {ev : Event}
    (hev : mget s.events e = some ev)
    (hown : ev.createdBy = owner)
    (hres : ∀ p ∈ ev.participants, (findUserById s p).isSome = true) :
    deleteEvent s e owner f =
      (.ok ev.participants.length,
        { s with userEvents := cleanupRegs s.userEvents e ev.participants,
                 events := mdel s.events e }) := by
  simp only [deleteEvent, hev]
  rw [if_neg (by simp [hown])]
  have hbulk : sendBulkEmails (resolveNotifications s ev.participants) f = .ok () := by
    simp [sendBulkEmails, resolve_all_some hres]
  by_cases hlen : (resolveNotifications s ev.participants).length > 0
  · rw [if_pos hlen, hbulk]
  · rw [if_neg hlen]

/-- C4: when the owner deletes an event with n registered participants, all
of them resolvable to user records, the delete succeeds and reports
participantsNotified as n whatever the email delivery outcomes, the event
leaves the event store, and the event id leaves every user's
registered-event set (the back-reference hypothesis says only
participants referenced the event, as every consistent store does). -/
theorem claim_c4_delete_cleanup (s : Store) (e owner : Nat) (f : String → Bool)
    (ev : Event) (n : Nat)
    (hev : mget s.events e = some ev)
    (hown : ev.createdBy = owner)
    (hn : ev.participants.length = n)
    (hres : ∀ p ∈ ev.participants, (findUserById s p).isSome = true)
    (hback : ∀ u, e ∈ ueOf s u → u ∈ ev.participants) :
    (deleteEvent s e owner f).1 = .ok n ∧
    mget (deleteEvent s e owner f).2.events e = none ∧
    (∀ u, e ∉ ueOf (deleteEvent s e owner f).2 u) := by
  rw [deleteEvent_commit hev hown hres]
  refine ⟨by rw [hn], by simp [mget_mdel], ?_⟩
  intro u
  simp only [ueOf, mget_cleanupRegs]
  cases hmu : mget s.userEvents u with
  | none => simp
  | some l =>
      by_cases hps : u ∈ ev.participants
      · simp [hps, mem_sdel]
      · simp only [hps, if_false, Option.map_some, Option.getD_some]
        intro hel
        exact hps (hback u (by rw [ueOf, hmu]; exact hel))

/-- The three users registered for the C4 witness event. -/
def usrC4 (i : Nat) (em : String) : User :=
  { email := em, password := "h", name := "P", role := "attendee", id := i,
    profile := { name := "P", bio := "", interests := [], createdAt := "c0",
                 eventsOrganized := 0, eventsAttended := 0 } }

/-- The C4 witness event: three participants, owned by user 5. -/
def evC4 : Event :=
  { id := 1, title := "Conf", description := "", date := "2025-09-09",
    time := "19:00", capacity := 5, createdBy := 5, participants := [21, 22, 23],
    createdAt := "c0", updatedAt := none }

/-- The C4 witness store: three resolvable participants of event 1. -/
def stC4 : Store :=
  { users := [("p1@x", usrC4 21 "p1@x"), ("p2@x", usrC4 22 "p2@x"),
              ("p3@x", usrC4 23 "p3@x")],
    events := [(1, evC4)],
    userEvents := [(21, [1]), (22, [1]), (23, [1])] }

/-- C4 witness: the owner deletes the event with 3 participants while the
delivery to one address fails; the response still reports 3 notified
participants and the event is gone from the store and from user 22's
registered-event set. -/
theorem claim_c4_witness :
    (deleteEvent stC4 1 5 (mailFailTo "p2@x")).1 = .ok 3 ∧
    mget (deleteEvent stC4 1 5 (mailFailTo "p2@x")).2.events 1 = none ∧
    1 ∉ ueOf (deleteEvent stC4 1 5 (mailFailTo "p2@x")).2 22 := by
  have h := claim_c4_delete_cleanup stC4 1 5 (mailFailTo "p2@x") evC4 3
    (by decide) (by decide) (by decide) (by decide)
    (by
      intro u hu
      by_cases h1 : u = 21
      · subst h1; decide
      by_cases h2 : u = 22
      · subst h2; decide
      by_cases h3 : u = 23
      · subst h3; decide
      exfalso
      simp [ueOf, stC4, mget, h1, h2, h3] at hu)
  exact ⟨h.1, h.2.1, h.2.2 22⟩

/-- The results and final store of a batch of register calls by the given
users against one event, in arrival order, with every confirmation email
delivered.  The check-then-insert section of the register route contains
no await, so under the single-threaded run-to-completion semantics of the
runtime any interleaving of concurrent register requests executes as some
arrival order of whole register calls, which this function folds. -/
def runRegs (s : Store) (e : Nat) : List Nat → List (Except EvError Int) × Store
  | [] => ([], s)
  | u :: us =>
      ((register s e u mailOk).1 :: (runRegs (register s e u mailOk).2 e us).1,
       (runRegs (register s e u mailOk).2 e us).2)

/-- The stored participant count of an event, 0 when absent. -/
def partCount (s : Store) (e : Nat) : Nat :=
  ((mget s.events e).map (fun ev => ev.participants.length)).getD 0

theorem runRegs_spec (us : List Nat) : ∀ (s : Store) (e : Nat) (ev : Event) (C : Nat),
    mget s.events e = some ev → ev.capacity = (C : Int) → us.Nodup →
    (∀ u ∈ us, u ∉ ev.participants) →
    ((runRegs s e us).1.countP (fun r => isOk r) =
        min us.length (C - ev.participants.length) ∧
     (runRegs s e us).1.countP (fun r => decide (r = Except.error EvError.eventFull)) =
        us.length - min us.length (C - ev.participants.length) ∧
     partCount (runRegs s e us).2 e =
        ev.participants.length + min us.length (C - ev.participants.length)) := by
  induction us with
  | nil =>
      intro s e ev C hev hcap _ _
      refine ⟨by simp [runRegs], by simp [runRegs], ?_⟩
      simp [runRegs, partCount, hev]
  | cons u us ih =>
      intro s e ev C hev hcap hnd hmem
      rw [List.nodup_cons] at hnd
      by_cases hge : (ev.participants.length : Int) ≥ ev.capacity
      · have hfull := @register_full s e u mailOk ev hev hge
        have hCle : C ≤ ev.participants.length := by
          rw [hcap] at hge
          exact_mod_cast hge
        have hz : C - ev.participants.length = 0 := Nat.sub_eq_zero_of_le hCle
        obtain ⟨ih1, ih2, ih3⟩ := ih s e ev C hev hcap hnd.2
          (fun x hx => hmem x (List.mem_cons_of_mem u hx))
        have hrun : runRegs s e (u :: us) =
            ((Except.error EvError.eventFull) :: (runRegs s e us).1, (runRegs s e us).2) := by
          simp [runRegs, hfull]
        rw [hrun]
        refine ⟨?_, ?_, ?_⟩
        · rw [List.countP_cons, ih1, hz]
          simp [isOk]
        · rw [List.countP_cons, ih2, hz]
          simp
        · rw [hz] at ih3 ⊢
          simpa using ih3
      · have hmemu : u ∉ ev.participants := hmem u (List.mem_cons_self u us)
        have hlt : ev.participants.length < C := by
          rw [hcap] at hge
          omega
        have hresp := register_success_resp_mailOk hev hge hmemu
        have hstate := register_success_state mailOk hev hge hmemu
        have hev2 : mget (register s e u mailOk).2.events e =
            some { ev with participants := sadd ev.participants u } := by
          rw [hstate]
          simp [mget_mset]
        have hlen2 : (sadd ev.participants u).length = ev.participants.length + 1 :=
          length_sadd_of_not_mem _ _ hmemu
        have hmem2 : ∀ x ∈ us, x ∉ sadd ev.participants u := by
          intro x hx
          rw [mem_sadd]
          push_neg
          refine ⟨hmem x (List.mem_cons_of_mem u hx), ?_⟩
          intro hxu
          exact hnd.1 (hxu ▸ hx)
        obtain ⟨ih1, ih2, ih3⟩ := ih (register s e u mailOk).2 e
          { ev with participants := sadd ev.participants u } C hev2 hcap hnd.2 hmem2
        simp only [hlen2] at ih1 ih2 ih3
        have hrun : runRegs s e (u :: us) =
            ((register s e u mailOk).1 :: (runRegs (register s e u mailOk).2 e us).1,
             (runRegs (register s e u mailOk).2 e us).2) := rfl
        rw [hrun]
        refine ⟨?_, ?_, ?_⟩
        · rw [List.countP_cons, ih1, hresp]
          simp only [isOk, if_true, List.length_cons]
          omega
        · rw [List.countP_cons, ih2, hresp]
          simp only [decide_eq_true_eq]
          rw [if_neg (by simp)]
          simp only [List.length_cons]
          omega
        · rw [ih3]
          simp only [List.length_cons]
          omega

/-- C9: a batch of register calls by pairwise-distinct users against an
event with capacity C and no participants yields, in whatever order the
calls are serialized (the route's check-then-insert section holds no await
point, so concurrent calls interleave as whole calls), exactly
min(N, C) successes, the other N - min(N, C) calls fail with Event is
full, and the final participant count is min(N, C), never above C. -/
theorem claim_c9_concurrent_capacity (s : Store) (e : Nat) (ev : Event) (C : Nat)
    (us : List Nat)
    (hev : mget s.events e = some ev) (hcap : ev.capacity = (C : Int))
    (hemp : ev.participants = []) (hnd : us.Nodup) :
    (runRegs s e us).1.countP (fun r => isOk r) = min us.length C ∧
    (runRegs s e us).1.countP (fun r => decide (r = Except.error EvError.eventFull)) =
      us.length - min us.length C ∧
    partCount (runRegs s e us).2 e = min us.length C ∧
    partCount (runRegs s e us).2 e ≤ C := by
  obtain ⟨h1, h2, h3⟩ := runRegs_spec us s e ev C hev hcap hnd
    (by intro x hx; rw [hemp]; exact List.not_mem_nil x)
  rw [hemp] at h1 h2 h3
  simp only [List.length_nil, Nat.sub_zero, Nat.zero_add] at h1 h2 h3
  exact ⟨h1, h2, h3, by rw [h3]; omega⟩

/-- The C9 witness event: capacity 2, no participants. -/
def evC9 : Event :=
  { id := 1, title := "Panel", description := "", date := "2025-10-10",
    time := "20:00", capacity := 2, createdBy := 5, participants := [],
    createdAt := "c0", updatedAt := none }

/-- The C9 witness store. -/
def stC9 : Store := { users := [], events := [(1, evC9)], userEvents := [] }

/-- C9 witness: three distinct users race for two spots; exactly two
succeed, one gets Event is full, and the event ends with two
participants. -/
theorem claim_c9_witness :
    (runRegs stC9 1 [31, 32, 33]).1.countP (fun r => isOk r) = min 3 2 ∧
    (runRegs stC9 1 [31, 32, 33]).1.countP
      (fun r => decide (r = Except.error EvError.eventFull)) = 3 - min 3 2 ∧
    partCount (runRegs stC9 1 [31, 32, 33]).2 1 = min 3 2 ∧
    partCount (runRegs stC9 1 [31, 32, 33]).2 1 ≤ 2 := by
  have h := claim_c9_concurrent_capacity stC9 1 evC9 2 [31, 32, 33]
    (by decide) (by decide) (by decide) (by decide)
  simpa using h

end VEM
